import Mathlib

/-!
Verification development for the `data-lake-rag` repository.

The Python sources under `rag-service/app/` are shallowly embedded as Lean
definitions:

* Python float arithmetic on scores is modelled by exact rationals.
* Calls to the external Elasticsearch client (`es_client.search`,
  `es_client.index`, `es_client.indices.*`) and to the embedding model are
  modelled by explicit parameters: the outcome of a search call is a value of
  type `Except Unit (List Hit)`, the embedding model is a function argument,
  and the index stores are explicit state values threaded through the
  functions.
* Python `str.lower`, single-character `str.replace`, `str.split()` and
  `os.path.splitext` are embedded as structurally recursive functions over
  `List Char` (`pyLower`, `pyReplaceChar`, `pySplitWhitespace`, `splitext`).
* Python dicts built with fixed keys are embedded as structures
  (`ScoredDoc`, `RankedResult`, `IndexedRecord`, ...).
* The dedup step of `retrieval.py` keys the seen-set on `hash(doc["content"])`.
  Python's built-in string hash is modelled as an opaque parameter
  `contentHash : String → Int`: equal strings always receive equal hashes
  (any function does), while distinct strings may collide, as with Python's
  per-process string hashing.
-/

namespace Rag

/-! ### Embeddings of Python string primitives -/

/-- Embedding of Python `str.lower()` (per-character lowercasing). -/
def pyLower (s : String) : String :=
  ⟨s.data.map Char.toLower⟩

/-- Embedding of Python `str.replace(pat, repl)` for one-character patterns. -/
def pyReplaceChar (s : String) (pat repl : Char) : String :=
  ⟨s.data.map fun c => if c = pat then repl else c⟩

/-- Helper for `pySplitWhitespace`: accumulates the current (reversed) token. -/
def tokenizeAux : List Char → List Char → List (List Char)
  | [], cur => if cur.isEmpty then [] else [cur.reverse]
  | c :: cs, cur =>
    if c.isWhitespace then
      if cur.isEmpty then tokenizeAux cs [] else cur.reverse :: tokenizeAux cs []
    else tokenizeAux cs (c :: cur)

/-- Embedding of Python `str.split()` with no argument: split on runs of
whitespace, discarding empty tokens. -/
def pySplitWhitespace (s : String) : List String :=
  (tokenizeAux s.data []).map fun cs => ⟨cs⟩

/-! ### Retrieval engine (`rag-service/app/retrieval.py`, `retrieve_documents`) -/

/-- One Elasticsearch hit, as consumed by `retrieve_documents`:
`hit["_source"]["content"]`, `hit["_source"]["metadata"]`, `hit["_score"]`. -/
structure Hit where
  content : String
  metadata : String
  score : ℚ
  deriving DecidableEq, Repr

/-- The `search_type` tag attached to each candidate. -/
inductive SearchType where
  | semantic
  | keyword
  deriving DecidableEq, Repr

/-- A candidate dict as built in `retrieve_documents` (retrieval.py lines
46-54 and 78-86); `rawScore` is the `raw_score` key deleted before returning. -/
structure ScoredDoc where
  content : String
  metadata : String
  rawScore : ℚ
  score : ℚ
  searchType : SearchType
  deriving DecidableEq, Repr

/-- An entry of the returned `results` list, after `raw_score` and
`rerank_factors` are deleted (retrieval.py lines 156-160). -/
structure RankedResult where
  content : String
  metadata : String
  score : ℚ
  searchType : SearchType
  deriving DecidableEq, Repr

/-- The success payload of `retrieve_documents` (retrieval.py lines 162-167). -/
structure RetrievalResult where
  query : String
  index : String
  resultCount : Nat
  results : List RankedResult
  deriving DecidableEq, Repr

/-- Outcome of one `es_client.search` call, as seen by `retrieve_documents`. -/
abbrev SearchOutcome := Except Unit (List Hit)

/-- `vector_max_score = 2.0` (retrieval.py line 44). -/
def vectorMaxScore : ℚ := 2

/-- The `vector_docs` list built from a successful vector search
(retrieval.py lines 46-54). -/
def vectorDocsOf (hits : List Hit) : List ScoredDoc :=
  hits.map fun hit =>
    { content := hit.content
      metadata := hit.metadata
      rawScore := hit.score
      score := hit.score / vectorMaxScore * 10
      searchType := SearchType.semantic }

/-- `keyword_max_score` (retrieval.py line 76): the maximum hit score when
there are hits, else `1.0`.  Python `max` over a nonempty list is a left fold
of the binary max. -/
def keywordMaxScore (hits : List Hit) : ℚ :=
  match hits.map fun hit => hit.score with
  | [] => 1
  | s :: rest => rest.foldl max s

/-- The `keyword_docs` list built from a successful keyword search
(retrieval.py lines 78-86). -/
def keywordDocsOf (hits : List Hit) : List ScoredDoc :=
  hits.map fun hit =>
    { content := hit.content
      metadata := hit.metadata
      rawScore := hit.score
      score := hit.score / keywordMaxScore hits * 10
      searchType := SearchType.keyword }

/-- retrieval.py lines 37-57: a failed vector search is caught and replaced
by the empty candidate list. -/
def recoveredVectorDocs (outcome : SearchOutcome) : List ScoredDoc :=
  match outcome with
  | Except.ok hits => vectorDocsOf hits
  | Except.error _ => []

/-- retrieval.py lines 69-89: a failed keyword search is caught and replaced
by the empty candidate list. -/
def recoveredKeywordDocs (outcome : SearchOutcome) : List ScoredDoc :=
  match outcome with
  | Except.ok hits => keywordDocsOf hits
  | Except.error _ => []

/-- The dedup loop of retrieval.py lines 95-102: walk the merged list, keep a
document only if `hash(doc["content"])` was not seen before.  `contentHash`
is the runtime string-hash function, an opaque parameter: byte-identical
contents always share the key, and distinct contents may collide. -/
def dedupByContent (contentHash : String → Int) :
    List ScoredDoc → List Int → List ScoredDoc
  | [], _ => []
  | doc :: rest, seen =>
    if contentHash doc.content ∈ seen then dedupByContent contentHash rest seen
    else doc :: dedupByContent contentHash rest (contentHash doc.content :: seen)

/-- `words(s)`: lower-case, then whitespace-tokenize (retrieval.py lines
111-112 build `set(s.lower().split())`). -/
def wordsOf (s : String) : List String :=
  pySplitWhitespace (pyLower s)

/-- `query_coverage` (retrieval.py lines 111-114): the fraction of distinct
lower-cased query words that occur among the content's words; `0` if the
query has no words. -/
def queryCoverage (query content : String) : ℚ :=
  let queryWords := (wordsOf query).dedup
  let contentWords := wordsOf content
  let wordOverlap := (queryWords.filter fun w => w ∈ contentWords).length
  if queryWords.isEmpty then 0 else (wordOverlap : ℚ) / (queryWords.length : ℚ)

/-- `length_factor` (retrieval.py line 117). -/
def lengthFactor (content : String) : ℚ :=
  min 1 ((content.length : ℚ) / 1000)

/-- The reranking formula of retrieval.py lines 119-136, with
`semantic_weight = 0.6`, `lexical_weight = 0.3`, `length_weight = 0.1`; the
keyword branch attenuates the first term by the extra `0.7` factor. -/
def rerankFormula (searchType : SearchType) (score coverage lfactor : ℚ) : ℚ :=
  match searchType with
  | SearchType.semantic => 0.6 * score + 0.3 * coverage * 10 + 0.1 * lfactor * 10
  | SearchType.keyword => 0.6 * 0.7 * score + 0.3 * coverage * 10 + 0.1 * lfactor * 10

/-- One iteration of the rerank loop (retrieval.py lines 105-143): the
candidate's `score` field is overwritten with the reranked score. -/
def rerankDoc (query : String) (doc : ScoredDoc) : ScoredDoc :=
  { doc with
    score := rerankFormula doc.searchType doc.score
      (queryCoverage query doc.content) (lengthFactor doc.content) }

/-- The ordering used by the final sort: descending by (reranked) score. -/
def scoreDescOrder (a b : ScoredDoc) : Prop := b.score ≤ a.score

instance : DecidableRel scoreDescOrder :=
  fun a b => inferInstanceAs (Decidable (b.score ≤ a.score))

instance : IsTotal ScoredDoc scoreDescOrder :=
  ⟨fun a b => le_total b.score a.score⟩

instance : IsTrans ScoredDoc scoreDescOrder :=
  ⟨fun _ _ _ h1 h2 => le_trans h2 h1⟩

/-- Embedding of Python `sorted(key = score, reverse = True)` (retrieval.py
lines 146-150): the stable sort with respect to descending score. -/
def sortByScoreDesc (l : List ScoredDoc) : List ScoredDoc :=
  List.insertionSort scoreDescOrder l

/-- retrieval.py lines 156-160: drop the internal `raw_score` (and the
`rerank_factors` bookkeeping) before returning. -/
def stripInternalFields (d : ScoredDoc) : RankedResult :=
  { content := d.content
    metadata := d.metadata
    score := d.score
    searchType := d.searchType }

/-- Stages 3-4 of `retrieve_documents`: merge (vector first), dedup by
content hash, rerank every survivor. -/
def uniqueReranked (contentHash : String → Int)
    (vectorOutcome keywordOutcome : SearchOutcome)
    (query : String) : List ScoredDoc :=
  (dedupByContent contentHash (recoveredVectorDocs vectorOutcome ++
    recoveredKeywordDocs keywordOutcome) []).map (rerankDoc query)

/-- Stages 5-6 of `retrieve_documents`: stable sort descending by reranked
score, truncate to `top_k`, strip internal fields. -/
def finalResults (contentHash : String → Int)
    (vectorOutcome keywordOutcome : SearchOutcome)
    (query : String) (topK : Nat) : List RankedResult :=
  ((sortByScoreDesc
    (uniqueReranked contentHash vectorOutcome keywordOutcome query)).take
    topK).map stripInternalFields

/-- Embedding of `retrieve_documents` (retrieval.py lines 17-171).
`contentHash` is the runtime string-hash used by the dedup step;
`embedOutcome` is the outcome of `embedding_model.embed_query(query)`: if it
raises, the outer handler re-raises (lines 169-171).  The two search-call
outcomes are the environment's responses; a failing call is recovered locally
with an empty candidate list, so the function always returns the payload of
lines 162-167 once the embedding succeeded. -/
def retrieve_documents (contentHash : String → Int)
    (embedOutcome : Except Unit (List ℚ))
    (vectorOutcome keywordOutcome : SearchOutcome)
    (query indexName : String) (topK : Nat) : Except Unit RetrievalResult :=
  match embedOutcome with
  | Except.error e => Except.error e
  | Except.ok _ =>
    Except.ok
      { query := query
        index := indexName
        resultCount :=
          (finalResults contentHash vectorOutcome keywordOutcome query topK).length
        results := finalResults contentHash vectorOutcome keywordOutcome query topK }

/-! ### Supporting lemmas about the retrieval pipeline -/

theorem mem_of_mem_dedupByContent (contentHash : String → Int) :
    ∀ (l : List ScoredDoc) (seen : List Int) (d : ScoredDoc),
      d ∈ dedupByContent contentHash l seen → d ∈ l := by
  intro l
  induction l with
  | nil => intro seen d h; simp [dedupByContent] at h
  | cons doc rest ih =>
    intro seen d h
    simp only [dedupByContent] at h
    by_cases hs : contentHash doc.content ∈ seen
    · simp only [if_pos hs] at h
      exact List.mem_cons_of_mem doc (ih seen d h)
    · simp only [if_neg hs, List.mem_cons] at h
      rcases h with h | h
      · exact h ▸ List.mem_cons_self doc rest
      · exact List.mem_cons_of_mem doc (ih _ d h)

theorem searchType_of_mem_vectorDocsOf (hits : List Hit) (d : ScoredDoc)
    (h : d ∈ vectorDocsOf hits) : d.searchType = SearchType.semantic := by
  simp only [vectorDocsOf, List.mem_map] at h
  obtain ⟨hit, _, rfl⟩ := h
  rfl

theorem searchType_of_mem_keywordDocsOf (hits : List Hit) (d : ScoredDoc)
    (h : d ∈ keywordDocsOf hits) : d.searchType = SearchType.keyword := by
  simp only [keywordDocsOf, List.mem_map] at h
  obtain ⟨hit, _, rfl⟩ := h
  rfl

theorem content_of_mem_vectorDocsOf (hits : List Hit) (d : ScoredDoc)
    (h : d ∈ vectorDocsOf hits) : d.content ∈ hits.map Hit.content := by
  simp only [vectorDocsOf, List.mem_map] at h
  obtain ⟨hit, hmem, rfl⟩ := h
  exact List.mem_map.mpr ⟨hit, hmem, rfl⟩

theorem content_of_mem_keywordDocsOf (hits : List Hit) (d : ScoredDoc)
    (h : d ∈ keywordDocsOf hits) : d.content ∈ hits.map Hit.content := by
  simp only [keywordDocsOf, List.mem_map] at h
  obtain ⟨hit, hmem, rfl⟩ := h
  exact List.mem_map.mpr ⟨hit, hmem, rfl⟩

/-- Characterization of the dedup loop: for each hash value, the survivors
are the first occurrence of that hash class in the input (none if the hash
was already seen). -/
theorem dedupByContent_filter (contentHash : String → Int) (v : Int) :
    ∀ (l : List ScoredDoc) (seen : List Int),
      (dedupByContent contentHash l seen).filter
          (fun d => contentHash d.content = v) =
        if v ∈ seen then []
        else (l.filter fun d => contentHash d.content = v).take 1 := by
  intro l
  induction l with
  | nil => intro seen; simp [dedupByContent]
  | cons doc rest ih =>
    intro seen
    simp only [dedupByContent]
    by_cases hs : contentHash doc.content ∈ seen
    · rw [if_pos hs, ih seen]
      by_cases hc : v ∈ seen
      · rw [if_pos hc, if_pos hc]
      · have hne : ¬ contentHash doc.content = v := fun h => hc (h ▸ hs)
        rw [if_neg hc, if_neg hc, List.filter_cons_of_neg (by simpa using hne)]
    · rw [if_neg hs]
      by_cases hdc : contentHash doc.content = v
      · have hvseen : ¬ v ∈ seen := fun h => hs (hdc ▸ h)
        rw [List.filter_cons_of_pos (by simpa using hdc), if_neg hvseen,
          List.filter_cons_of_pos (by simpa using hdc),
          ih (contentHash doc.content :: seen),
          if_pos (by simp [hdc]), List.take_succ_cons, List.take_zero]
      · rw [List.filter_cons_of_neg (by simpa using hdc),
          ih (contentHash doc.content :: seen),
          List.filter_cons_of_neg (by simpa using hdc)]
        by_cases hc : v ∈ seen
        · rw [if_pos (by simp [hc]), if_pos hc]
        · have hnotc : ¬ v ∈ contentHash doc.content :: seen := by
            simp only [List.mem_cons, not_or]
            exact ⟨fun h => hdc h.symm, hc⟩
          rw [if_neg hnotc, if_neg hc]

/-- Inserting an element does not disturb the subsequence of any other
score class, and prepends the element to its own score class. -/
theorem filter_score_orderedInsert (c : ℚ) (a : ScoredDoc) :
    ∀ l : List ScoredDoc,
      (List.orderedInsert scoreDescOrder a l).filter (fun d => d.score = c) =
        if a.score = c then a :: l.filter (fun d => d.score = c)
        else l.filter (fun d => d.score = c) := by
  intro l
  induction l with
  | nil =>
    by_cases hac : a.score = c <;>
      simp [List.orderedInsert, List.filter, hac]
  | cons b rest ih =>
    simp only [List.orderedInsert]
    by_cases hab : scoreDescOrder a b
    · rw [if_pos hab]
      by_cases hac : a.score = c <;>
        simp [List.filter_cons, hac]
    · rw [if_neg hab]
      have hbgt : a.score < b.score := lt_of_not_le hab
      by_cases hac : a.score = c
      · have hbc : ¬ b.score = c := by
          intro h
          exact absurd (hac ▸ h ▸ hbgt) (lt_irrefl _)
        simp [List.filter_cons, hac, hbc, ih]
      · simp [List.filter_cons, hac, ih]

/-- Stability of the final sort: within every score class, the sorted list
keeps the input order. -/
theorem filter_score_sortByScoreDesc (c : ℚ) :
    ∀ l : List ScoredDoc,
      (sortByScoreDesc l).filter (fun d => d.score = c) =
        l.filter (fun d => d.score = c) := by
  intro l
  induction l with
  | nil => rfl
  | cons a rest ih =>
    simp only [sortByScoreDesc, List.insertionSort] at *
    rw [filter_score_orderedInsert c a, ih]
    by_cases hac : a.score = c
    · rw [if_pos hac, List.filter_cons_of_pos (by simpa using hac)]
    · rw [if_neg hac, List.filter_cons_of_neg (by simpa using hac)]

theorem mem_sortByScoreDesc {d : ScoredDoc} {l : List ScoredDoc} :
    d ∈ sortByScoreDesc l ↔ d ∈ l := by
  simp [sortByScoreDesc]

/-- Every entry of `finalResults` descends from a merged candidate, keeping
its search type and content. -/
theorem finalResults_origin (contentHash : String → Int)
    (vo ko : SearchOutcome) (query : String) (topK : Nat)
    (r : RankedResult) (hr : r ∈ finalResults contentHash vo ko query topK) :
    ∃ d, d ∈ recoveredVectorDocs vo ++ recoveredKeywordDocs ko ∧
      r.searchType = d.searchType ∧ r.content = d.content := by
  obtain ⟨d1, hd1, rfl⟩ := List.mem_map.mp hr
  have hd2 : d1 ∈ sortByScoreDesc (uniqueReranked contentHash vo ko query) :=
    List.take_subset _ _ hd1
  have hd3 : d1 ∈ uniqueReranked contentHash vo ko query :=
    mem_sortByScoreDesc.mp hd2
  obtain ⟨d0, hd0, rfl⟩ := List.mem_map.mp hd3
  exact ⟨d0, mem_of_mem_dedupByContent contentHash _ _ _ hd0, rfl, rfl⟩

/-! ### Claim theorems for the retrieval engine -/

/-- C1 counterexample: when both the vector search and the keyword search
fail, `retrieve_documents` does **not** propagate an error — it returns a
success payload (with an empty result list) to the caller. -/
theorem retrieve_both_paths_fail_cex :
    retrieve_documents (fun _ => 0) (Except.ok [])
      (Except.error ()) (Except.error ())
      ("what is stored") ("documents_upload") 5 =
      Except.ok
        { query := "what is stored", index := "documents_upload",
          resultCount := 0, results := [] } := by
  rfl

/-- C1 (amended): both inner `except` handlers of `retrieve_documents`
recover a failed search with an empty candidate list, so when both the
vector-similarity search and the keyword search fail the function returns a
success payload whose `results` list is empty (`result_count = 0`) instead
of propagating a failure. -/
theorem retrieve_both_paths_fail_returns_empty (contentHash : String → Int)
    (embedVec : List ℚ) (query indexName : String) (topK : Nat) :
    retrieve_documents contentHash (Except.ok embedVec)
      (Except.error ()) (Except.error ()) query indexName topK =
      Except.ok
        { query := query, index := indexName,
          resultCount := 0, results := [] } := by
  simp [retrieve_documents, finalResults, uniqueReranked, recoveredVectorDocs,
    recoveredKeywordDocs, dedupByContent, sortByScoreDesc, List.insertionSort]

/-- C2: if exactly one search path raises, `retrieve_documents` still
returns a result payload, and every returned result descends from the
surviving path's candidates: it carries that path's `search_type` tag and
one of the surviving hits' contents. -/
theorem retrieve_single_path_failure_degrades (contentHash : String → Int)
    (embedVec : List ℚ) (hits : List Hit) (query indexName : String)
    (topK : Nat) :
    (retrieve_documents contentHash (Except.ok embedVec)
        (Except.error ()) (Except.ok hits) query indexName topK =
      Except.ok
        { query := query, index := indexName,
          resultCount :=
            (finalResults contentHash (Except.error ()) (Except.ok hits)
              query topK).length,
          results := finalResults contentHash (Except.error ()) (Except.ok hits)
            query topK }) ∧
    ((finalResults contentHash (Except.error ()) (Except.ok hits) query topK).all
      fun r => r.searchType == SearchType.keyword &&
        decide (r.content ∈ hits.map Hit.content)) = true ∧
    (retrieve_documents contentHash (Except.ok embedVec)
        (Except.ok hits) (Except.error ()) query indexName topK =
      Except.ok
        { query := query, index := indexName,
          resultCount :=
            (finalResults contentHash (Except.ok hits) (Except.error ())
              query topK).length,
          results := finalResults contentHash (Except.ok hits) (Except.error ())
            query topK }) ∧
    ((finalResults contentHash (Except.ok hits) (Except.error ()) query topK).all
      fun r => r.searchType == SearchType.semantic &&
        decide (r.content ∈ hits.map Hit.content)) = true := by
  refine ⟨rfl, ?_, rfl, ?_⟩
  · rw [List.all_eq_true]
    intro r hr
    obtain ⟨d, hd, hst, hc⟩ :=
      finalResults_origin contentHash (Except.error ()) (Except.ok hits)
        query topK r hr
    simp only [recoveredVectorDocs, recoveredKeywordDocs, List.nil_append] at hd
    simp only [Bool.and_eq_true, beq_iff_eq, decide_eq_true_eq]
    exact ⟨hst.trans (searchType_of_mem_keywordDocsOf hits d hd),
      hc ▸ content_of_mem_keywordDocsOf hits d hd⟩
  · rw [List.all_eq_true]
    intro r hr
    obtain ⟨d, hd, hst, hc⟩ :=
      finalResults_origin contentHash (Except.ok hits) (Except.error ())
        query topK r hr
    simp only [recoveredVectorDocs, recoveredKeywordDocs, List.append_nil] at hd
    simp only [Bool.and_eq_true, beq_iff_eq, decide_eq_true_eq]
    exact ⟨hst.trans (searchType_of_mem_vectorDocsOf hits d hd),
      hc ▸ content_of_mem_vectorDocsOf hits d hd⟩

/-- C3: the returned results list has at most `top_k` entries, is sorted in
descending order of the reranked score, and the sort is stable: within every
score class the sorted list keeps the merge order of the candidates. -/
theorem retrieve_results_bounded_sorted_stable (contentHash : String → Int)
    (embedVec : List ℚ) (vo ko : SearchOutcome) (query indexName : String)
    (topK : Nat) :
    (retrieve_documents contentHash (Except.ok embedVec) vo ko
        query indexName topK =
      Except.ok
        { query := query, index := indexName,
          resultCount := (finalResults contentHash vo ko query topK).length,
          results := finalResults contentHash vo ko query topK }) ∧
    (finalResults contentHash vo ko query topK).length ≤ topK ∧
    List.Sorted (fun a b : RankedResult => b.score ≤ a.score)
      (finalResults contentHash vo ko query topK) ∧
    ∀ c : ℚ,
      (sortByScoreDesc (uniqueReranked contentHash vo ko query)).filter
          (fun d => d.score = c) =
        (uniqueReranked contentHash vo ko query).filter
          (fun d => d.score = c) := by
  refine ⟨rfl, ?_, ?_, fun c => filter_score_sortByScoreDesc c _⟩
  · rw [finalResults, List.length_map, List.length_take]
    exact min_le_left _ _
  · have hsorted : List.Sorted scoreDescOrder
        (sortByScoreDesc (uniqueReranked contentHash vo ko query)) :=
      List.sorted_insertionSort scoreDescOrder _
    have htake : List.Sorted scoreDescOrder
        ((sortByScoreDesc (uniqueReranked contentHash vo ko query)).take topK) :=
      List.Pairwise.sublist (List.take_sublist _ _) hsorted
    exact List.Pairwise.map stripInternalFields (fun a b h => h) htake

/-- C4 counterexample: under a colliding runtime hash (here the constant
hash), two byte-identical keyword-path candidates are both dropped because a
distinct vector-path content already occupies their hash slot — zero of the
byte-identical pair survive, so the merged list is not deduplicated by exact
content-string identity with exactly one survivor per content. -/
theorem merge_dedup_hash_collision_cex :
    (dedupByContent (fun _ => 0)
        (vectorDocsOf [⟨"x", "m", 2⟩] ++
          keywordDocsOf [⟨"y", "m", 1⟩, ⟨"y", "m", 1⟩]) []).filter
      (fun d => d.content = "y") = [] ∧
    ((vectorDocsOf [⟨"x", "m", 2⟩] ++
        keywordDocsOf [⟨"y", "m", 1⟩, ⟨"y", "m", 1⟩]).filter
      (fun d => d.content = "y")).length = 2 := by
  constructor <;> rfl

/-- C4 (amended): the merge step concatenates vector-path candidates before
keyword-path candidates, and the dedup loop keys on the runtime hash of the
content string, keeping the first occurrence of each hash class in that
merged order.  Hence for any two candidates with byte-identical content at
most one survives; when the hash is collision-free on the merged candidates
the survivors are exactly the first occurrence of each content string; and
whenever a content occurs on the vector path, the surviving candidate of its
hash class is a vector-path (semantic) one. -/
theorem merge_dedup_keeps_first_occurrence (contentHash : String → Int)
    (vhits khits : List Hit) (v : Int) (c : String) :
    ((dedupByContent contentHash
        (vectorDocsOf vhits ++ keywordDocsOf khits) []).filter
        (fun d => contentHash d.content = v) =
      ((vectorDocsOf vhits ++ keywordDocsOf khits).filter
        fun d => contentHash d.content = v).take 1) ∧
    ((dedupByContent contentHash
        (vectorDocsOf vhits ++ keywordDocsOf khits) []).filter
      (fun d => d.content = c)).length ≤ 1 ∧
    ((∀ d1 ∈ vectorDocsOf vhits ++ keywordDocsOf khits,
        ∀ d2 ∈ vectorDocsOf vhits ++ keywordDocsOf khits,
          contentHash d1.content = contentHash d2.content →
            d1.content = d2.content) →
      (dedupByContent contentHash
          (vectorDocsOf vhits ++ keywordDocsOf khits) []).filter
          (fun d => d.content = c) =
        ((vectorDocsOf vhits ++ keywordDocsOf khits).filter
          fun d => d.content = c).take 1) ∧
    ((dedupByContent contentHash
        (vectorDocsOf vhits ++ keywordDocsOf khits) []).all
      fun d => !(decide (d.content ∈ vhits.map Hit.content)) ||
        (d.searchType == SearchType.semantic)) = true := by
  have hpart1 : ∀ w : Int,
      (dedupByContent contentHash
          (vectorDocsOf vhits ++ keywordDocsOf khits) []).filter
          (fun d => contentHash d.content = w) =
        ((vectorDocsOf vhits ++ keywordDocsOf khits).filter
          fun d => contentHash d.content = w).take 1 := by
    intro w
    rw [dedupByContent_filter contentHash w _ []]
    rfl
  refine ⟨hpart1 v, ?_, ?_, ?_⟩
  · have hsub : (dedupByContent contentHash
        (vectorDocsOf vhits ++ keywordDocsOf khits) []).filter
          (fun d => d.content = c) =
        ((dedupByContent contentHash
          (vectorDocsOf vhits ++ keywordDocsOf khits) []).filter
          (fun d => contentHash d.content = contentHash c)).filter
          (fun d => d.content = c) := by
      rw [List.filter_filter]
      apply List.filter_congr
      intro d _
      by_cases hd : d.content = c
      · simp [hd]
      · simp [hd]
    rw [hsub, hpart1 (contentHash c)]
    calc ((((vectorDocsOf vhits ++ keywordDocsOf khits).filter
            fun d => contentHash d.content = contentHash c).take 1).filter
            (fun d => d.content = c)).length ≤
        (((vectorDocsOf vhits ++ keywordDocsOf khits).filter
          fun d => contentHash d.content = contentHash c).take 1).length :=
          List.length_filter_le _ _
      _ ≤ 1 := by rw [List.length_take]; exact min_le_left _ _
  · intro hinj
    by_cases hc : ∃ m ∈ vectorDocsOf vhits ++ keywordDocsOf khits,
        m.content = c
    · obtain ⟨m, hm, hmc⟩ := hc
      have hcongr1 : (vectorDocsOf vhits ++ keywordDocsOf khits).filter
            (fun d => d.content = c) =
          (vectorDocsOf vhits ++ keywordDocsOf khits).filter
            (fun d => contentHash d.content = contentHash c) := by
        apply List.filter_congr
        intro d hd
        rw [decide_eq_decide]
        constructor
        · intro h; rw [h]
        · intro h
          have := hinj d hd m hm (by rw [h, hmc])
          rw [this, hmc]
      have hcongr2 : (dedupByContent contentHash
            (vectorDocsOf vhits ++ keywordDocsOf khits) []).filter
            (fun d => d.content = c) =
          (dedupByContent contentHash
            (vectorDocsOf vhits ++ keywordDocsOf khits) []).filter
            (fun d => contentHash d.content = contentHash c) := by
        apply List.filter_congr
        intro d hd
        have hdm : d ∈ vectorDocsOf vhits ++ keywordDocsOf khits :=
          mem_of_mem_dedupByContent contentHash _ _ _ hd
        rw [decide_eq_decide]
        constructor
        · intro h; rw [h]
        · intro h
          have := hinj d hdm m hm (by rw [h, hmc])
          rw [this, hmc]
      rw [hcongr2, hpart1 (contentHash c), ← hcongr1]
    · push_neg at hc
      have hl : (dedupByContent contentHash
            (vectorDocsOf vhits ++ keywordDocsOf khits) []).filter
            (fun d => d.content = c) = [] := by
        rw [List.filter_eq_nil_iff]
        intro d hd
        simpa using hc d (mem_of_mem_dedupByContent contentHash _ _ _ hd)
      have hr : (vectorDocsOf vhits ++ keywordDocsOf khits).filter
            (fun d => d.content = c) = [] := by
        rw [List.filter_eq_nil_iff]
        intro d hd
        simpa using hc d hd
      rw [hl, hr]
      rfl
  · rw [List.all_eq_true]
    intro d hd
    rw [Bool.or_eq_true, Bool.not_eq_true', decide_eq_false_iff_not]
    by_cases hv : d.content ∈ vhits.map Hit.content
    · right
      rw [beq_iff_eq]
      obtain ⟨w, hwmem, hwc⟩ : ∃ w, w ∈ vectorDocsOf vhits ∧
          w.content = d.content := by
        obtain ⟨hit, hhit, hhc⟩ := List.mem_map.mp hv
        exact ⟨_, List.mem_map.mpr ⟨hit, hhit, rfl⟩, hhc⟩
      have hfd : d ∈ (dedupByContent contentHash
          (vectorDocsOf vhits ++ keywordDocsOf khits) []).filter
          (fun x => contentHash x.content = contentHash d.content) :=
        List.mem_filter.mpr ⟨hd, by simp⟩
      rw [dedupByContent_filter contentHash (contentHash d.content) _ [],
        if_neg (List.not_mem_nil _), List.filter_append] at hfd
      have hwf : w ∈ (vectorDocsOf vhits).filter
          (fun x => contentHash x.content = contentHash d.content) :=
        List.mem_filter.mpr ⟨hwmem, by simp [hwc]⟩
      obtain ⟨x, xs, hx⟩ : ∃ x xs,
          (vectorDocsOf vhits).filter
            (fun y => contentHash y.content = contentHash d.content) =
            x :: xs := by
        cases hcase : (vectorDocsOf vhits).filter
            (fun y => contentHash y.content = contentHash d.content) with
        | nil => rw [hcase] at hwf; exact absurd hwf (List.not_mem_nil _)
        | cons x xs => exact ⟨x, xs, rfl⟩
      rw [hx] at hfd
      have hfd2 : d ∈ [x] := hfd
      have hdx : d = x := List.mem_singleton.mp hfd2
      have hxv : x ∈ vectorDocsOf vhits := by
        have hxf : x ∈ (vectorDocsOf vhits).filter
            (fun y => contentHash y.content = contentHash d.content) := by
          rw [hx]; exact List.mem_cons_self x xs
        exact List.mem_of_mem_filter hxf
      exact hdx ▸ searchType_of_mem_vectorDocsOf vhits x hxv
    · exact Or.inl hv

/-- Witness for the amended dedup theorem: a collision-free hash (string
length, on these contents) recovers dedup by exact content identity at a
concrete input. -/
theorem merge_dedup_keeps_first_occurrence_witness :
    (dedupByContent (fun s => (s.length : Int))
        (vectorDocsOf [⟨"aa", "m", 2⟩] ++
          keywordDocsOf [⟨"b", "m", 1⟩]) []).filter
      (fun d => d.content = "b") =
      ((vectorDocsOf [⟨"aa", "m", 2⟩] ++
          keywordDocsOf [⟨"b", "m", 1⟩]).filter
        fun d => d.content = "b").take 1 :=
  (merge_dedup_keeps_first_occurrence (fun s => (s.length : Int))
      [⟨"aa", "m", 2⟩] [⟨"b", "m", 1⟩] 0 ("b")).2.2.1 (by decide)

/-- C5: for every candidate, the reranked score is the weighted formula of
the spec: `0.6*score + 0.3*query_coverage*10 + 0.1*length_factor*10` on the
semantic path and `0.6*0.7*score + 0.3*query_coverage*10 +
0.1*length_factor*10` on the keyword path, where `query_coverage` is the
fraction of the query's distinct lower-cased whitespace-tokenized words that
occur among the content's words (`0` when the query has no words), and
`length_factor = min 1 (len(content)/1000)`. -/
theorem rerank_score_formula (query : String) (d : ScoredDoc) :
    (rerankDoc query d).score =
      (if d.searchType = SearchType.semantic
       then 0.6 * d.score + 0.3 * queryCoverage query d.content * 10 +
         0.1 * lengthFactor d.content * 10
       else 0.6 * 0.7 * d.score + 0.3 * queryCoverage query d.content * 10 +
         0.1 * lengthFactor d.content * 10) ∧
    queryCoverage query d.content =
      (if (wordsOf query).dedup.isEmpty then 0
       else (((wordsOf query).dedup.filter
           fun w => w ∈ wordsOf d.content).length : ℚ) /
         (((wordsOf query).dedup.length : ℚ))) ∧
    lengthFactor d.content = min 1 ((d.content.length : ℚ) / 1000) := by
  refine ⟨?_, rfl, rfl⟩
  cases h : d.searchType <;>
    simp [rerankDoc, rerankFormula, h]

/-- C6: holding the base score and the search type fixed, the rerank formula
is strictly increasing in `query_coverage` and strictly increasing in
`length_factor`. -/
theorem rerank_formula_strictly_monotone (t : SearchType)
    (s qc qc1 qc2 lf lf1 lf2 : ℚ) (h1 : qc1 < qc2) (h2 : lf1 < lf2) :
    rerankFormula t s qc1 lf < rerankFormula t s qc2 lf ∧
    rerankFormula t s qc lf1 < rerankFormula t s qc lf2 := by
  cases t <;>
    exact ⟨by simp only [rerankFormula]; nlinarith,
      by simp only [rerankFormula]; nlinarith⟩

/-- Witness for the strict monotonicity of the rerank formula at concrete
inputs. -/
theorem rerank_formula_strictly_monotone_witness :
    (0 : ℚ) < 1 ∧
    (rerankFormula SearchType.semantic 5 0 2 < rerankFormula SearchType.semantic 5 1 2 ∧
     rerankFormula SearchType.semantic 5 3 0 < rerankFormula SearchType.semantic 5 3 1) :=
  ⟨by decide,
    rerank_formula_strictly_monotone SearchType.semantic 5 3 0 1 2 0 1
      (by decide) (by decide)⟩

/-! ### Ingestion pipeline (`rag-service/app/document_manager.py`) -/

/-- The per-chunk metadata dict (document_manager.py lines 204-208). -/
structure DocMetadata where
  source : String
  filename : String
  description : String
  deriving DecidableEq, Repr

/-- One Elasticsearch document as written by `process_document`
(document_manager.py lines 238-242). -/
structure IndexedRecord where
  content : String
  metadata : DocMetadata
  vector : List ℚ
  deriving DecidableEq, Repr

/-- The record store of one Elasticsearch index: an association list of
(id, record) entries in insertion order. -/
abbrev RecordStore := List (String × IndexedRecord)

/-- `es_client.index(index, id, document)`: an upsert keyed by id — replace
the document under an existing id, else append a new entry. -/
def upsertRecord (store : RecordStore) (id : String)
    (record : IndexedRecord) : RecordStore :=
  if store.any fun entry => entry.1 = id then
    store.map fun entry => if entry.1 = id then (id, record) else entry
  else store ++ [(id, record)]

/-- The ids present in a store. -/
def keysOf (store : RecordStore) : List String :=
  store.map Prod.fst

/-- The document count of an index. -/
def recordCount (store : RecordStore) : Nat :=
  store.length

/-- `filename.replace('.', '_')` (document_manager.py line 237). -/
def sanitizeFilename (filename : String) : String :=
  pyReplaceChar filename '.' '_'

/-- The record id written for the chunk at global offset `offset`:
`f"\x7bfilename.replace('.', '_')\x7d_\x7bi+j\x7d"` (document_manager.py
line 237). -/
def recordId (filename : String) (offset : Nat) : String :=
  sanitizeFilename filename ++ "_" ++ toString offset

/-- `batch_size = 50` (document_manager.py line 222). -/
def batchSize : Nat := 50

/-- The document written for one chunk text (document_manager.py lines
238-242); `embed` is the opaque embedding capability, applied per text
(`embed_documents` maps it over the batch). -/
def chunkRecord (meta : DocMetadata) (embed : String → List ℚ)
    (text : String) : IndexedRecord :=
  { content := text, metadata := meta, vector := embed text }

/-- The inner loop `for j, (chunk, embedding) in enumerate(zip(batch,
embeddings))` over one batch whose global start offset is `i`
(document_manager.py lines 234-243). -/
def batchWritesFrom (filename : String) (meta : DocMetadata)
    (embed : String → List ℚ) : Nat → List String → List (String × IndexedRecord)
  | _, [] => []
  | i, text :: rest =>
    (recordId filename i, chunkRecord meta embed text) ::
      batchWritesFrom filename meta embed (i + 1) rest

/-- The outer batch loop `for i in range(0, total_chunks, batch_size)`
(document_manager.py lines 225-243), written with fuel for structural
termination; `chunks.length` units of fuel always suffice. -/
def batchedWritesAux (filename : String) (meta : DocMetadata)
    (embed : String → List ℚ) : Nat → Nat → List String →
      List (String × IndexedRecord)
  | 0, _, _ => []
  | fuel + 1, i, chunks =>
    if chunks.isEmpty then []
    else
      batchWritesFrom filename meta embed i (chunks.take batchSize) ++
        batchedWritesAux filename meta embed fuel (i + batchSize)
          (chunks.drop batchSize)

/-- All (id, document) writes issued by one `process_document` call for the
given chunk texts. -/
def batchedWrites (filename : String) (meta : DocMetadata)
    (embed : String → List ℚ) (chunks : List String) :
    List (String × IndexedRecord) :=
  batchedWritesAux filename meta embed chunks.length 0 chunks

/-- Apply a sequence of writes to a record store, in order. -/
def applyWrites (store : RecordStore)
    (writes : List (String × IndexedRecord)) : RecordStore :=
  writes.foldl (fun s w => upsertRecord s w.1 w.2) store

/-- The indexing phase of `process_document` (document_manager.py lines
221-243): write every chunk's record, batched by 50, into the store. -/
def indexChunks (filename : String) (meta : DocMetadata)
    (embed : String → List ℚ) (chunks : List String)
    (store : RecordStore) : RecordStore :=
  applyWrites store (batchedWrites filename meta embed chunks)

/-- `source_slug` (document_manager.py line 215):
`source.replace("/", "_").replace(" ", "_").lower()`. -/
def sourceSlug (source : String) : String :=
  pyLower (pyReplaceChar (pyReplaceChar source '/' '_') ' ' '_')

/-- `index_name = "documents_" + source_slug` (document_manager.py line
216). -/
def indexNameFor (source : String) : String :=
  "documents_" ++ sourceSlug source

/-! ### Index schema management (`_create_index_with_mapping`) -/

/-- The mapping dict of document_manager.py lines 44-61, flattened to its
six settings. -/
structure IndexMapping where
  contentType : String
  metadataType : String
  vectorType : String
  vectorDims : Nat
  vectorIndexOption : Bool
  vectorSimilarity : String
  deriving DecidableEq, Repr

/-- The concrete mapping used for every document index. -/
def documentMapping : IndexMapping where
  contentType := "text"
  metadataType := "object"
  vectorType := "dense_vector"
  vectorDims := 384
  vectorIndexOption := true
  vectorSimilarity := "cosine"

/-- The Elasticsearch indices state: which indices exist, with their
mapping. -/
abbrev IndicesState := String → Option IndexMapping

/-- An observable index-administration effect. -/
inductive EsEffect where
  | createCall (name : String) (mapping : IndexMapping)
  deriving DecidableEq, Repr

/-- Embedding of `_create_index_with_mapping` (document_manager.py lines
40-66): when the index does not exist, create it with `documentMapping`;
otherwise do nothing.  Returns the new indices state together with the list
of create calls issued. -/
def create_index_with_mapping (indexName : String) (st : IndicesState) :
    IndicesState × List EsEffect :=
  if (st indexName).isSome then (st, [])
  else
    (fun n => if n = indexName then some documentMapping else st n,
      [EsEffect.createCall indexName documentMapping])

/-! ### Loader selection (`utils.py`, `_get_loader_for_file`) -/

/-- Python `str.rfind` helper: index of the last occurrence of `c`, as an
`Int` (`-1` when absent). -/
def rfindAux (c : Char) : List Char → Nat → Int → Int
  | [], _, best => best
  | x :: xs, i, best =>
    rfindAux c xs (i + 1) (if x = c then (i : Int) else best)

/-- Python `p.rfind(c)` over the characters of `p`. -/
def pyRfind (l : List Char) (c : Char) : Int :=
  rfindAux c l 0 (-1)

/-- Embedding of `posixpath.splitext`: split off the extension at the last
dot after the last path separator, unless every character of the basename
before that dot is itself a dot (then there is no extension). -/
def splitext (p : String) : String × String :=
  let l := p.data
  let sepIndex : Int := pyRfind l '/'
  let dotIndex : Int := pyRfind l '.'
  if sepIndex < dotIndex then
    let start : Nat := (sepIndex + 1).toNat
    let stop : Nat := dotIndex.toNat
    if ((l.drop start).take (stop - start)).any fun c => c ≠ '.' then
      (⟨l.take stop⟩, ⟨l.drop stop⟩)
    else (p, "")
  else (p, "")

/-- `get_file_extension` (utils.py lines 35-37):
`os.path.splitext(filename)[1].lower()`. -/
def get_file_extension (filename : String) : String :=
  pyLower (splitext filename).2

/-- A langchain loader value, as selected by `_get_loader_for_file`. -/
inductive Loader where
  | textLoader (path : String)
  | csvLoader (path : String)
  | pdfLoader (path : String)
  deriving DecidableEq, Repr

/-- Which loader class a selection outcome picked (`none` for the raised
`ValueError`). -/
inductive LoaderKind where
  | text
  | csv
  | pdf
  deriving DecidableEq, Repr

/-- Embedding of `_get_loader_for_file` (document_manager.py lines 27-38). -/
def get_loader_for_file (filePath : String) : Except String Loader :=
  let ext := get_file_extension filePath
  if ext = ".txt" ∨ ext = ".md" ∨ ext = ".html" then
    Except.ok (Loader.textLoader filePath)
  else if ext = ".csv" then Except.ok (Loader.csvLoader filePath)
  else if ext = ".pdf" then Except.ok (Loader.pdfLoader filePath)
  else Except.error ("Unsupported file type: " ++ ext)

/-- Loader-class shape of a selection outcome. -/
def loaderKindOf : Except String Loader → Option LoaderKind
  | Except.ok (Loader.textLoader _) => some LoaderKind.text
  | Except.ok (Loader.csvLoader _) => some LoaderKind.csv
  | Except.ok (Loader.pdfLoader _) => some LoaderKind.pdf
  | Except.error _ => none

/-! ### Supporting lemmas about the ingestion pipeline -/

theorem batchedWritesAux_nil (filename : String) (meta : DocMetadata)
    (embed : String → List ℚ) (fuel i : Nat) :
    batchedWritesAux filename meta embed fuel i [] = [] := by
  cases fuel <;> rfl

theorem batchWritesFrom_append (filename : String) (meta : DocMetadata)
    (embed : String → List ℚ) :
    ∀ (a : List String) (b : List String) (i : Nat),
      batchWritesFrom filename meta embed i (a ++ b) =
        batchWritesFrom filename meta embed i a ++
          batchWritesFrom filename meta embed (i + a.length) b := by
  intro a
  induction a with
  | nil => intro b i; simp [batchWritesFrom]
  | cons t rest ih =>
    intro b i
    have h : i + 1 + rest.length = i + (rest.length + 1) := by omega
    simp only [List.cons_append, batchWritesFrom, List.length_cons,
      List.append_eq]
    rw [ih b (i + 1), h]

/-- The batched write loop issues exactly the flat sequence of per-chunk
writes, ids counting up from the starting offset. -/
theorem batchedWritesAux_eq_flat (filename : String) (meta : DocMetadata)
    (embed : String → List ℚ) :
    ∀ (fuel : Nat) (chunks : List String) (i : Nat), chunks.length ≤ fuel →
      batchedWritesAux filename meta embed fuel i chunks =
        batchWritesFrom filename meta embed i chunks := by
  intro fuel
  induction fuel with
  | zero =>
    intro chunks i h
    have hnil : chunks = [] := List.eq_nil_of_length_eq_zero (Nat.le_zero.mp h)
    subst hnil; rfl
  | succ fuel ih =>
    intro chunks i h
    cases chunks with
    | nil => rfl
    | cons t rest =>
      show (if ((t :: rest).isEmpty) = true then [] else _) = _
      rw [if_neg (by simp)]
      conv_rhs => rw [← List.take_append_drop batchSize (t :: rest)]
      rw [batchWritesFrom_append]
      by_cases hlen : (t :: rest).length ≤ batchSize
      · rw [List.drop_eq_nil_of_le hlen, batchedWritesAux_nil]
        rfl
      · have hbs : 1 ≤ batchSize := by decide
        have htl : (List.take batchSize (t :: rest)).length = batchSize := by
          rw [List.length_take]; omega
        rw [ih (List.drop batchSize (t :: rest)) (i + batchSize)
          (by rw [List.length_drop]; omega), htl]

theorem batchWritesFrom_ids (filename : String) (meta : DocMetadata)
    (embed : String → List ℚ) :
    ∀ (chunks : List String) (i : Nat),
      (batchWritesFrom filename meta embed i chunks).map Prod.fst =
        (List.range' i chunks.length).map (recordId filename) := by
  intro chunks
  induction chunks with
  | nil => intro i; rfl
  | cons t rest ih =>
    intro i
    simp only [batchWritesFrom, List.map_cons, List.length_cons, ih]
    rfl

theorem keysOf_cons (e : String × IndexedRecord) (t : RecordStore) :
    keysOf (e :: t) = e.1 :: keysOf t := rfl

theorem keysOf_map_replace (id : String) (record : IndexedRecord) :
    ∀ store : RecordStore,
      keysOf (store.map fun entry =>
        if entry.1 = id then (id, record) else entry) = keysOf store := by
  intro store
  induction store with
  | nil => rfl
  | cons e t ih =>
    rw [List.map_cons, keysOf_cons, keysOf_cons, ih]
    by_cases he : e.1 = id
    · rw [if_pos he, he]
    · rw [if_neg he]

theorem any_fst_iff (store : RecordStore) (id : String) :
    (store.any fun entry => entry.1 = id) = true ↔ id ∈ keysOf store := by
  rw [List.any_eq_true, keysOf]
  constructor
  · rintro ⟨e, he, heq⟩
    exact List.mem_map.mpr ⟨e, he, by simpa using heq⟩
  · intro h
    obtain ⟨e, he, heq⟩ := List.mem_map.mp h
    exact ⟨e, he, by simpa using heq⟩

theorem keysOf_upsertRecord (store : RecordStore) (id : String)
    (record : IndexedRecord) :
    keysOf (upsertRecord store id record) =
      if id ∈ keysOf store then keysOf store else keysOf store ++ [id] := by
  rw [upsertRecord]
  by_cases h : id ∈ keysOf store
  · rw [if_pos ((any_fst_iff store id).mpr h), if_pos h, keysOf_map_replace]
  · rw [if_neg (fun hc => h ((any_fst_iff store id).mp hc)), if_neg h, keysOf,
      List.map_append]
    rfl

theorem mem_keysOf_upsertRecord (store : RecordStore) (id a : String)
    (record : IndexedRecord) (h : a ∈ keysOf store) :
    a ∈ keysOf (upsertRecord store id record) := by
  rw [keysOf_upsertRecord]
  by_cases hid : id ∈ keysOf store
  · rwa [if_pos hid]
  · rw [if_neg hid]; exact List.mem_append_left _ h

theorem self_mem_keysOf_upsertRecord (store : RecordStore) (id : String)
    (record : IndexedRecord) : id ∈ keysOf (upsertRecord store id record) := by
  rw [keysOf_upsertRecord]
  by_cases hid : id ∈ keysOf store
  · rwa [if_pos hid]
  · rw [if_neg hid]
    exact List.mem_append_right _ (List.mem_singleton_self id)

theorem mem_keysOf_applyWrites (a : String) :
    ∀ (writes : List (String × IndexedRecord)) (store : RecordStore),
      a ∈ keysOf store → a ∈ keysOf (applyWrites store writes) := by
  intro writes
  induction writes with
  | nil => intro store h; exact h
  | cons w ws ih =>
    intro store h
    exact ih _ (mem_keysOf_upsertRecord store w.1 a w.2 h)

theorem writes_mem_keysOf_applyWrites :
    ∀ (writes : List (String × IndexedRecord)) (store : RecordStore)
      (w : String × IndexedRecord), w ∈ writes →
        w.1 ∈ keysOf (applyWrites store writes) := by
  intro writes
  induction writes with
  | nil => intro store w h; exact absurd h (List.not_mem_nil w)
  | cons v ws ih =>
    intro store w h
    rcases List.mem_cons.mp h with h | h
    · subst h
      exact mem_keysOf_applyWrites w.1 ws _
        (self_mem_keysOf_upsertRecord store w.1 w.2)
    · exact ih _ w h

theorem keysOf_applyWrites_of_covered :
    ∀ (writes : List (String × IndexedRecord)) (store : RecordStore),
      (∀ w ∈ writes, w.1 ∈ keysOf store) →
        keysOf (applyWrites store writes) = keysOf store := by
  intro writes
  induction writes with
  | nil => intro store _; rfl
  | cons w ws ih =>
    intro store h
    have hw : w.1 ∈ keysOf store := h w (List.mem_cons_self w ws)
    have hkeys : keysOf (upsertRecord store w.1 w.2) = keysOf store := by
      rw [keysOf_upsertRecord, if_pos hw]
    show keysOf (applyWrites (upsertRecord store w.1 w.2) ws) = keysOf store
    rw [ih _ fun v hv => by
      rw [hkeys]; exact h v (List.mem_cons_of_mem w hv), hkeys]

theorem recordCount_eq_keys_length (store : RecordStore) :
    recordCount store = (keysOf store).length :=
  (List.length_map store Prod.fst).symm

/-! ### Claim theorems for the ingestion pipeline -/

/-- C7: the id of the chunk at global offset `n` is
`sanitize(filename) ++ "_" ++ n` — a pure function of the filename and the
offset — so re-ingesting the same chunks for the same filename into the same
index writes to exactly the already-present ids: the second ingestion
overwrites instead of duplicating, leaving the id list and the record count
unchanged. -/
theorem reingest_overwrites_not_duplicates (filename : String)
    (meta : DocMetadata) (embed : String → List ℚ) (chunks : List String)
    (store : RecordStore) :
    ((batchedWrites filename meta embed chunks).map Prod.fst =
      (List.range chunks.length).map (recordId filename)) ∧
    keysOf (indexChunks filename meta embed chunks
        (indexChunks filename meta embed chunks store)) =
      keysOf (indexChunks filename meta embed chunks store) ∧
    recordCount (indexChunks filename meta embed chunks
        (indexChunks filename meta embed chunks store)) =
      recordCount (indexChunks filename meta embed chunks store) := by
  have hids : (batchedWrites filename meta embed chunks).map Prod.fst =
      (List.range chunks.length).map (recordId filename) := by
    rw [batchedWrites, batchedWritesAux_eq_flat filename meta embed
      chunks.length chunks 0 (le_refl _), batchWritesFrom_ids,
      List.range_eq_range']
  have hkeys : keysOf (indexChunks filename meta embed chunks
      (indexChunks filename meta embed chunks store)) =
      keysOf (indexChunks filename meta embed chunks store) := by
    apply keysOf_applyWrites_of_covered
    intro w hw
    exact writes_mem_keysOf_applyWrites _ store w hw
  exact ⟨hids, hkeys, by
    rw [recordCount_eq_keys_length, recordCount_eq_keys_length, hkeys]⟩

/-- C8: ingestion writes to the index `"documents_" ++ slug(source)`, where
the slug maps each '/' and ' ' of the source to '_' and lower-cases every
other character; consequently any two sources with equal slugs are routed to
the same index. -/
theorem index_name_from_source_slug (s s1 s2 : String)
    (h : sourceSlug s1 = sourceSlug s2) :
    (indexNameFor s).data =
      "documents_".data ++
        (s.data.map fun c => if c = '/' ∨ c = ' ' then '_' else c.toLower) ∧
    indexNameFor s1 = indexNameFor s2 := by
  constructor
  · show ("documents_" ++ sourceSlug s).data = _
    have hdata : (sourceSlug s).data =
        ((s.data.map fun c => if c = '/' then '_' else c).map
          fun c => if c = ' ' then '_' else c).map Char.toLower := rfl
    have hmap : ((s.data.map fun c => if c = '/' then '_' else c).map
        fun c => if c = ' ' then '_' else c).map Char.toLower =
        s.data.map fun c => if c = '/' ∨ c = ' ' then '_' else c.toLower := by
      rw [List.map_map, List.map_map]
      apply List.map_eq_map_iff.mpr
      intro c _
      simp only [Function.comp_apply]
      by_cases hc1 : c = '/'
      · subst hc1; decide
      · by_cases hc2 : c = ' '
        · subst hc2; decide
        · rw [if_neg hc1, if_neg hc2,
            if_neg (by rintro (hc | hc) <;> [exact hc1 hc; exact hc2 hc])]
    show "documents_".data ++ (sourceSlug s).data = _
    rw [hdata, hmap]
  · rw [indexNameFor, indexNameFor, h]

/-- Witness for the slug-collision consequence at concrete sources. -/
theorem index_name_from_source_slug_witness :
    sourceSlug ("MinIO/bucket A") = sourceSlug ("minio/bucket a") ∧
    indexNameFor ("MinIO/bucket A") = indexNameFor ("minio/bucket a") :=
  ⟨by decide,
    (index_name_from_source_slug ("x") ("MinIO/bucket A") ("minio/bucket a")
      (by decide)).2⟩

/-- C9: `_create_index_with_mapping` is create-if-absent only.  On an
existing index it issues no create call and leaves the indices state (hence
the existing mapping) untouched; on a missing index it issues exactly one
create call carrying the mapping content:text, metadata:object,
vector:dense_vector(dims 384, index true, similarity cosine), and registers
exactly that mapping for the new index, leaving all other indices
unchanged. -/
theorem create_index_if_absent (st : IndicesState) (indexName : String)
    (m : IndexMapping) (hex : st indexName = some m) (st2 : IndicesState)
    (hab : st2 indexName = none) :
    create_index_with_mapping indexName st = (st, []) ∧
    create_index_with_mapping indexName st2 =
      (fun n => if n = indexName then some documentMapping else st2 n,
        [EsEffect.createCall indexName documentMapping]) ∧
    documentMapping = ⟨"text", "object", "dense_vector", 384, true, "cosine"⟩ := by
  refine ⟨?_, ?_, rfl⟩
  · rw [create_index_with_mapping, if_pos (by rw [hex]; rfl)]
  · rw [create_index_with_mapping, if_neg (by rw [hab]; simp)]

/-- Witness for the create-if-absent behaviour at concrete states. -/
theorem create_index_if_absent_witness :
    (fun _ : String => some documentMapping) ("documents_upload") =
      some documentMapping ∧
    (fun _ : String => (none : Option IndexMapping)) ("documents_upload") =
      none ∧
    (create_index_with_mapping ("documents_upload")
        (fun _ => some documentMapping) =
      ((fun _ => some documentMapping), []) ∧
    create_index_with_mapping ("documents_upload") (fun _ => none) =
      (fun n => if n = "documents_upload" then some documentMapping
        else (fun _ => none) n,
        [EsEffect.createCall ("documents_upload") documentMapping]) ∧
    documentMapping = ⟨"text", "object", "dense_vector", 384, true, "cosine"⟩) :=
  ⟨rfl, rfl,
    create_index_if_absent (fun _ => some documentMapping) ("documents_upload")
      documentMapping rfl (fun _ => none) rfl⟩

/-- C10: loader selection depends only on the lower-cased extension — paths
whose `splitext` extensions agree up to character case select the same
loader class — and the selection table is: text loader for
`.txt`/`.md`/`.html`, CSV loader for `.csv`, PDF loader for `.pdf`, and a
raised `ValueError` for every other extension. -/
theorem loader_selection_by_extension (p q : String)
    (hpq : pyLower (splitext p).2 = pyLower (splitext q).2) :
    loaderKindOf (get_loader_for_file p) = loaderKindOf (get_loader_for_file q) ∧
    (get_file_extension p = ".txt" ∨ get_file_extension p = ".md" ∨
        get_file_extension p = ".html" →
      get_loader_for_file p = Except.ok (Loader.textLoader p)) ∧
    (get_file_extension p = ".csv" →
      get_loader_for_file p = Except.ok (Loader.csvLoader p)) ∧
    (get_file_extension p = ".pdf" →
      get_loader_for_file p = Except.ok (Loader.pdfLoader p)) ∧
    (¬(get_file_extension p = ".txt" ∨ get_file_extension p = ".md" ∨
        get_file_extension p = ".html" ∨ get_file_extension p = ".csv" ∨
        get_file_extension p = ".pdf") →
      get_loader_for_file p =
        Except.error ("Unsupported file type: " ++ get_file_extension p)) := by
  have hfe : get_file_extension p = get_file_extension q := hpq
  refine ⟨?_, ?_, ?_, ?_, ?_⟩
  · rw [get_loader_for_file, get_loader_for_file, hfe]
    by_cases h1 : get_file_extension q = ".txt" ∨ get_file_extension q = ".md" ∨
        get_file_extension q = ".html"
    · rw [if_pos h1, if_pos h1]; rfl
    · rw [if_neg h1, if_neg h1]
      by_cases h2 : get_file_extension q = ".csv"
      · rw [if_pos h2, if_pos h2]; rfl
      · rw [if_neg h2, if_neg h2]
        by_cases h3 : get_file_extension q = ".pdf"
        · rw [if_pos h3, if_pos h3]; rfl
        · rw [if_neg h3, if_neg h3]
  · intro h
    rw [get_loader_for_file]
    exact if_pos h
  · intro h
    rw [get_loader_for_file]
    rw [if_neg (by rw [h]; rintro (hc | hc | hc) <;> exact absurd hc (by decide)),
      if_pos h]
  · intro h
    rw [get_loader_for_file]
    rw [if_neg (by rw [h]; rintro (hc | hc | hc) <;> exact absurd hc (by decide)),
      if_neg (by rw [h]; intro hc; exact absurd hc (by decide)), if_pos h]
  · intro h
    push_neg at h
    obtain ⟨h1, h2, h3, h4, h5⟩ := h
    rw [get_loader_for_file]
    rw [if_neg (by rintro (hc | hc | hc) <;> [exact h1 hc; exact h2 hc; exact h3 hc]),
      if_neg h4, if_neg h5]

/-- Witness for the loader-selection theorem: `.TXT` is accepted exactly
like `.txt`. -/
theorem loader_selection_by_extension_witness :
    pyLower (splitext ("doc.TXT")).2 = pyLower (splitext ("doc.txt")).2 ∧
    get_file_extension ("doc.TXT") = ".txt" ∧
    (loaderKindOf (get_loader_for_file ("doc.TXT")) =
      loaderKindOf (get_loader_for_file ("doc.txt"))) ∧
    get_loader_for_file ("doc.TXT") = Except.ok (Loader.textLoader ("doc.TXT")) ∧
    get_loader_for_file ("t.Csv") = Except.ok (Loader.csvLoader ("t.Csv")) ∧
    get_loader_for_file ("s.PDF") = Except.ok (Loader.pdfLoader ("s.PDF")) ∧
    get_loader_for_file ("a.docx") =
      Except.error ("Unsupported file type: " ++ get_file_extension ("a.docx")) :=
  ⟨by decide, by decide,
    (loader_selection_by_extension ("doc.TXT") ("doc.txt") (by decide)).1,
    (loader_selection_by_extension ("doc.TXT") ("doc.txt") (by decide)).2.1
      (Or.inl (by decide)),
    (loader_selection_by_extension ("t.Csv") ("t.csv") (by decide)).2.2.1
      (by decide),
    (loader_selection_by_extension ("s.PDF") ("s.pdf") (by decide)).2.2.2.1
      (by decide),
    (loader_selection_by_extension ("a.docx") ("a.docx") rfl).2.2.2.2
      (by decide)⟩

end Rag
